import Mathlib

/-!
Shallow embedding of the CARA core models (`cara/models.py`): intervals,
piecewise-constant functions, the ventilation hierarchy, emission sources,
the recursive concentration model and the exposure model.  Machine floats
are modelled by real numbers; Python `set`s of floats by `Finset ℝ`.
-/

open scoped Classical

namespace Cara

/-- A room, holding only its volume (`Room` in `models.py`). -/
structure Room where
  volume : ℝ

/-- An interval: a collection of `(start, end)` boundary pairs, each open at
the start and closed at the end (`Interval.boundaries` in `models.py`).
Concrete variants (`SpecificInterval`, `PeriodicInterval`) are constructor
functions producing the list of boundary pairs. -/
structure Interval where
  boundaries : List (ℝ × ℝ)

/-- Model of `Interval.transition_times`: the set of all boundary endpoints. -/
noncomputable def Interval.transition_times (i : Interval) : Finset ℝ :=
  i.boundaries.foldr (fun p transitions => insert p.1 (insert p.2 transitions)) ∅

/-- Model of `Interval.triggered`: whether `time` falls inside a boundary pair
(`start < t <= end`). -/
def Interval.triggered (i : Interval) (time : ℝ) : Prop :=
  ∃ p ∈ i.boundaries, p.1 < time ∧ time ≤ p.2

/-- Model of `SpecificInterval`: an explicit list of presence boundary pairs. -/
def SpecificInterval (present_times : List (ℝ × ℝ)) : Interval :=
  ⟨present_times⟩

/-- Model of `numpy.arange start stop step`: the values `start + i*step` for
`0 ≤ i < ⌈(stop − start)/step⌉` (empty when the count is non-positive). -/
noncomputable def arange (start stop step : ℝ) : List ℝ :=
  (List.range (⌈(stop - start) / step⌉).toNat).map
    (fun i : ℕ => start + (i : ℝ) * step)

/-- Model of `PeriodicInterval period duration` (both in minutes): boundary pairs
`(i, i + duration/60)` for each `i` in `arange 0 24 (period/60)`, and no
pairs at all when `period == 0` or `duration == 0`. -/
noncomputable def PeriodicInterval (period duration : ℝ) : Interval :=
  if period = 0 ∨ duration = 0 then ⟨[]⟩
  else ⟨(arange 0 24 (period / 60)).map (fun i => (i, i + duration / 60))⟩

/-- A piecewise-constant function: `N+1` transition times and `N` values
(`PiecewiseConstant` in `models.py`).  The `__post_init__` validity checks
are modelled separately by `PiecewiseConstant.raisesOnInit`. -/
structure PiecewiseConstant where
  transition_times : List ℝ
  values : List ℝ

/-- Model of Python `tuple(sorted(set(l)))`: the distinct elements of `l`
in increasing order. -/
noncomputable def sortedDedup (l : List ℝ) : List ℝ :=
  l.toFinset.sort (· ≤ ·)

/-- The exact construction-time checks of `PiecewiseConstant.__post_init__`:
a `ValueError` is raised iff the transition-time count is not one more than
the value count, or `tuple(sorted(set(transition_times)))` differs from
`transition_times`. -/
def PiecewiseConstant.raisesOnInit (pc : PiecewiseConstant) : Prop :=
  pc.transition_times.length ≠ pc.values.length + 1 ∨
    sortedDedup pc.transition_times ≠ pc.transition_times

/-- The scan loop of `PiecewiseConstant.value`: walk the zip of consecutive
transition-time pairs with the values, returning the value of the first
sub-interval `(t1, t2]` containing `time`; the accumulator carries the
last value assigned by the loop (returned when the loop ends without a
break, exactly as the Python `for ... break` idiom does). -/
noncomputable def pcwScan (time : ℝ) : List ℝ → List ℝ → ℝ → ℝ
  | t1 :: t2 :: ts, v :: vs, _ =>
      if t1 < time ∧ time ≤ t2 then v else pcwScan time (t2 :: ts) vs v
  | _, _, last => last

/-- Model of `PiecewiseConstant.value`: clamp to the first value at or before the
first transition, to the last value after the last transition, and scan
the sub-intervals otherwise. -/
noncomputable def PiecewiseConstant.value (pc : PiecewiseConstant) (time : ℝ) : ℝ :=
  if time ≤ pc.transition_times.headI then pc.values.headI
  else if pc.transition_times.getLastI < time then pc.values.getLastI
  else pcwScan time pc.transition_times pc.values 0

/-- The `_VentilationBase` capability: a set of transition times and an
air-exchange rate per room and time.  Each concrete ventilation class of
`models.py` is a constructor function producing such a record. -/
structure VentilationBase where
  transition_times : Finset ℝ
  air_exchange : Room → ℝ → ℝ

/-- Model of `AirChange`: a fixed air-exchange rate while the active interval is
triggered, zero otherwise; no dependence on the room volume. -/
noncomputable def AirChange (active : Interval) (air_exch : ℝ) : VentilationBase where
  transition_times := active.transition_times
  air_exchange := fun _ time => if active.triggered time then air_exch else 0

/-- Model of `HEPAFilter`: rate `q_air_mech / volume` while active, zero otherwise. -/
noncomputable def HEPAFilter (active : Interval) (q_air_mech : ℝ) : VentilationBase where
  transition_times := active.transition_times
  air_exchange := fun room time =>
    if active.triggered time then q_air_mech / room.volume else 0

/-- Model of `HVACMechanical`: rate `q_air_mech / volume` while active, zero otherwise. -/
noncomputable def HVACMechanical (active : Interval) (q_air_mech : ℝ) : VentilationBase where
  transition_times := active.transition_times
  air_exchange := fun room time =>
    if active.triggered time then q_air_mech / room.volume else 0

/-- Model of `WindowOpening.air_exchange`: zero when the window is shut; otherwise the
buoyancy-driven rate, with the inside temperature floored to at least
`outside + min_deltaT`.  The discharge coefficient is a parameter here: the
Python base class leaves it abstract and subclasses provide it. -/
noncomputable def WindowOpening (active : Interval)
    (inside_temp outside_temp : PiecewiseConstant)
    (window_height opening_length : ℝ) (number_of_windows : ℕ)
    (min_deltaT : ℝ) (discharge_coefficient : ℝ) : VentilationBase where
  transition_times :=
    active.transition_times ∪ inside_temp.transition_times.toFinset ∪
      outside_temp.transition_times.toFinset
  air_exchange := fun room time =>
    if active.triggered time then
      let inside_t := max (inside_temp.value time) (outside_temp.value time + min_deltaT)
      let temp_gradient := (inside_t - outside_temp.value time) / outside_temp.value time
      let root := Real.sqrt (9.81 * window_height * temp_gradient)
      let window_area := window_height * opening_length * number_of_windows
      3600 / (3 * room.volume) * discharge_coefficient * window_area * root
    else 0

/-- Model of `SlidingWindow`: a `WindowOpening` with measured discharge coefficient 0.6. -/
noncomputable def SlidingWindow (active : Interval)
    (inside_temp outside_temp : PiecewiseConstant)
    (window_height opening_length : ℝ) (number_of_windows : ℕ)
    (min_deltaT : ℝ) : VentilationBase :=
  WindowOpening active inside_temp outside_temp window_height opening_length
    number_of_windows min_deltaT 0.6

/-- Model of `MultipleVentilation`: transition times are the union of the
constituents' and the rate is the sum of the constituents' rates. -/
noncomputable def MultipleVentilation (ventilations : List VentilationBase) :
    VentilationBase where
  transition_times :=
    ventilations.foldr (fun v transitions => v.transition_times ∪ transitions) ∅
  air_exchange := fun room time =>
    (ventilations.map (fun v => v.air_exchange room time)).sum

/-- A virus: half-life, viral load and coefficient of infectivity. -/
structure Virus where
  halflife : ℝ
  viral_load_in_sputum : ℝ
  coefficient_of_infectivity : ℝ

/-- Model of `Virus.decay_constant = ln 2 / halflife`. -/
noncomputable def Virus.decay_constant (v : Virus) : ℝ :=
  Real.log 2 / v.halflife

/-- A mask: exhale/leak/inhale filtration efficiencies. -/
structure Mask where
  η_exhale : ℝ
  η_leaks : ℝ
  η_inhale : ℝ

/-- Model of `Mask.exhale_efficiency = η_exhale * (1 − η_leaks)`. -/
def Mask.exhale_efficiency (m : Mask) : ℝ :=
  m.η_exhale * (1 - m.η_leaks)

/-- An expiration profile: ejection factors per particle-size bin. -/
structure Expiration where
  ejection_factor : List ℝ
  particle_sizes : List ℝ

/-- Volume of a spherical particle of the given diameter. -/
noncomputable def particleVolume (diameter : ℝ) : ℝ :=
  4 * Real.pi * (diameter / 2) ^ 3 / 3

/-- Model of `Expiration.aerosols`: sum of per-bin volume ⋅ ejection-factor
contributions, discounting bins of diameter ≥ 3e-4 by the mask's exhale
efficiency.  (The floating-point `inf` superspreading override of the
Python code has no counterpart over the reals, where every ejection
factor is finite.) -/
noncomputable def Expiration.aerosols (e : Expiration) (mask : Mask) : ℝ :=
  ((e.particle_sizes.zip e.ejection_factor).map (fun df =>
    let contribution := particleVolume df.1 * df.2
    if 3e-4 ≤ df.1 then contribution * (1 - mask.exhale_efficiency)
    else contribution)).sum

/-- An activity: inhalation and exhalation rates. -/
structure Activity where
  inhalation_rate : ℝ
  exhalation_rate : ℝ

/-- A population: headcount, presence interval, mask and activity. -/
structure Population where
  number : ℕ
  presence : Interval
  mask : Mask
  activity : Activity

/-- Model of `Population.person_present`: whether the presence interval is triggered. -/
def Population.person_present (p : Population) (time : ℝ) : Prop :=
  p.presence.triggered time

/-- An infected population: a population plus virus and expiration. -/
structure InfectedPopulation extends Population where
  virus : Virus
  expiration : Expiration

/-- Model of `InfectedPopulation.emission_rate_when_present`: the constant per-person
emission rate (infectious quanta per hour). -/
noncomputable def InfectedPopulation.emission_rate_when_present
    (ip : InfectedPopulation) : ℝ :=
  ip.virus.viral_load_in_sputum * ip.virus.coefficient_of_infectivity *
    ip.activity.exhalation_rate * 10 ^ 6 * ip.expiration.aerosols ip.mask

/-- Model of `InfectedPopulation.individual_emission_rate`: zero when absent, the
constant per-person rate when present. -/
noncomputable def InfectedPopulation.individual_emission_rate
    (ip : InfectedPopulation) (time : ℝ) : ℝ :=
  if ip.person_present time then ip.emission_rate_when_present else 0

/-- Model of `InfectedPopulation.emission_rate`: the whole population's rate. -/
noncomputable def InfectedPopulation.emission_rate
    (ip : InfectedPopulation) (time : ℝ) : ℝ :=
  ip.individual_emission_rate time * ip.number

/-- The concentration model: room, ventilation and infected population. -/
structure ConcentrationModel where
  room : Room
  ventilation : VentilationBase
  infected : InfectedPopulation

/-- The model's virus (a convenience accessor, as in the source). -/
def ConcentrationModel.virus (m : ConcentrationModel) : Virus :=
  m.infected.virus

/-- Model of `infectious_virus_removal_rate`: deposition rate (`1e-4 * 3600 / 1.5`)
plus viral decay constant plus the ventilation's air-exchange rate. -/
noncomputable def ConcentrationModel.infectious_virus_removal_rate
    (m : ConcentrationModel) (time : ℝ) : ℝ :=
  1e-4 * 3600 / 1.5 + m.virus.decay_constant +
    m.ventilation.air_exchange m.room time

/-- Model of `state_change_times`: the union of the infected population's presence
transition times and the ventilation's transition times, sorted ascending. -/
noncomputable def ConcentrationModel.state_change_times
    (m : ConcentrationModel) : List ℝ :=
  (m.infected.presence.transition_times ∪ m.ventilation.transition_times).sort (· ≤ ·)

/-- The loop of `last_state_change`: the first element of the (descending)
list that is strictly below `time`, or `0` when none is. -/
noncomputable def firstLt (time : ℝ) : List ℝ → ℝ
  | [] => 0
  | s :: rest => if s < time then s else firstLt time rest

/-- Model of `last_state_change`: scan the reversed (hence descending) sorted
state-change times for the most recent one strictly before `time`. -/
noncomputable def ConcentrationModel.last_state_change
    (m : ConcentrationModel) (time : ℝ) : ℝ :=
  firstLt time m.state_change_times.reverse

/-- The body of the `concentration` recursion, with an explicit fuel
parameter bounding the recursion depth (in the source the recursion
terminates because `last_state_change` strictly descends through the finite
state-change list before reaching the `time == 0` base case; fuel
`|state_change_times| + 1` therefore always suffices, see
`concentrationAux_stable`). -/
noncomputable def concentrationAux (m : ConcentrationModel) : ℕ → ℝ → ℝ
  | 0, _ => 0
  | fuel + 1, time =>
    if time = 0 then 0
    else
      let IVRR := m.infectious_virus_removal_rate time
      let V := m.room.volume
      let t_last_state_change := m.last_state_change time
      let conc_last := concentrationAux m fuel t_last_state_change
      let delta_time := time - t_last_state_change
      let fac := Real.exp (-IVRR * delta_time)
      let conc_limit := m.infected.emission_rate time / (IVRR * V)
      conc_limit * (1 - fac) + conc_last * fac

/-- Model of `ConcentrationModel.concentration`: the recursive concentration value. -/
noncomputable def ConcentrationModel.concentration
    (m : ConcentrationModel) (time : ℝ) : ℝ :=
  concentrationAux m (m.state_change_times.length + 1) time

/-- Model of `numpy.linspace start stop num`: `num` evenly spaced samples
from `start` to `stop` inclusive. -/
noncomputable def linspace (start stop : ℝ) (num : ℕ) : List ℝ :=
  (List.range num).map (fun i => start + (stop - start) * i / ((num : ℝ) - 1))

/-- Model of `numpy.trapz ys xs`: trapezoidal integration of the sampled
values `ys` against the sample points `xs`. -/
noncomputable def trapz : List ℝ → List ℝ → ℝ
  | y1 :: y2 :: ys, x1 :: x2 :: xs =>
      (x2 - x1) * (y1 + y2) / 2 + trapz (y2 :: ys) (x2 :: xs)
  | _, _ => 0

/-- The exposure model: a concentration model, an exposed population and a
repeat count. -/
structure ExposureModel where
  concentration_model : ConcentrationModel
  exposed : Population
  repeats : ℕ

/-- The inner `integrate` helper of `quanta_exposure`: trapezoidal rule over
a 50-point `linspace` grid. -/
noncomputable def integrateSamples (fn : ℝ → ℝ) (start stop : ℝ) : ℝ :=
  trapz ((linspace start stop 50).map fn) (linspace start stop 50)

/-- Model of `ExposureModel.quanta_exposure`: concentration integrated over each
presence boundary pair of the exposed population, times the repeat count. -/
noncomputable def ExposureModel.quanta_exposure (em : ExposureModel) : ℝ :=
  (em.exposed.presence.boundaries.map (fun p =>
    integrateSamples em.concentration_model.concentration p.1 p.2)).sum * em.repeats

/-- Model of `ExposureModel.infection_probability`: the Wells-Riley-type
dose-response probability, in percent. -/
noncomputable def ExposureModel.infection_probability (em : ExposureModel) : ℝ :=
  (1 - Real.exp (-(em.exposed.activity.inhalation_rate *
    (1 - em.exposed.mask.η_inhale) * em.quanta_exposure))) * 100

/-- Model of `ExposureModel.expected_new_cases`: probability times exposed headcount
over 100. -/
noncomputable def ExposureModel.expected_new_cases (em : ExposureModel) : ℝ :=
  em.infection_probability * em.exposed.number / 100

/-- Model of `nested_replace(self, {'concentration_model.infected.number': n})`:
the same exposure model with only the infected headcount replaced. -/
def setInfectedNumber (em : ExposureModel) (n : ℕ) : ExposureModel :=
  { em with
    concentration_model :=
      { em.concentration_model with
        infected :=
          { em.concentration_model.infected with
            toPopulation :=
              { em.concentration_model.infected.toPopulation with number := n } } } }

/-- Model of `ExposureModel.reproduction_number`: `expected_new_cases` directly when
the infected headcount is already 1, otherwise of the headcount-1 variant. -/
noncomputable def ExposureModel.reproduction_number (em : ExposureModel) : ℝ :=
  if em.concentration_model.infected.number = 1 then em.expected_new_cases
  else (setInfectedNumber em 1).expected_new_cases

/-! Helper lemmas about the embedded definitions. -/

/-- Membership in the folded-insert set built by `Interval.transition_times`. -/
lemma mem_foldr_insert {l : List (ℝ × ℝ)} {s : ℝ} :
    s ∈ l.foldr (fun p transitions => insert p.1 (insert p.2 transitions))
        (∅ : Finset ℝ) ↔
      ∃ p ∈ l, s = p.1 ∨ s = p.2 := by
  induction l with
  | nil => simp
  | cons p rest ih => simp [ih, or_assoc]

/-- A time is a transition time of an interval iff it is an endpoint of one
of its boundary pairs. -/
lemma Interval.mem_transition_times {i : Interval} {s : ℝ} :
    s ∈ i.transition_times ↔ ∃ p ∈ i.boundaries, s = p.1 ∨ s = p.2 :=
  mem_foldr_insert

/-- On a descending-sorted list, `firstLt` returns the greatest element
strictly below `time`, or `0` when no element is below `time`. -/
lemma firstLt_spec {l : List ℝ} (time : ℝ) (hl : l.Sorted (· > ·)) :
    (firstLt time l ∈ l ∧ firstLt time l < time ∧
        ∀ s ∈ l, s < time → s ≤ firstLt time l) ∨
      (firstLt time l = 0 ∧ ∀ s ∈ l, ¬ s < time) := by
  induction l with
  | nil => right; simp [firstLt]
  | cons a rest ih =>
    rw [List.sorted_cons] at hl
    by_cases ha : a < time
    · left
      rw [firstLt, if_pos ha]
      refine ⟨List.mem_cons_self a rest, ha, ?_⟩
      intro s hs _
      rcases List.mem_cons.mp hs with rfl | hs
      · exact le_refl s
      · exact (hl.1 s hs).le
    · rw [firstLt, if_neg ha]
      rcases ih hl.2 with ⟨h1, h2, h3⟩ | ⟨h1, h2⟩
      · left
        refine ⟨List.mem_cons_of_mem a h1, h2, ?_⟩
        intro s hs hst
        rcases List.mem_cons.mp hs with rfl | hs
        · exact absurd hst ha
        · exact h3 s hs hst
      · right
        refine ⟨h1, ?_⟩
        intro s hs
        rcases List.mem_cons.mp hs with rfl | hs
        · exact ha
        · exact h2 s hs

/-- The state-change set underlying `state_change_times`. -/
noncomputable def ConcentrationModel.stateChangeSet (m : ConcentrationModel) :
    Finset ℝ :=
  m.infected.presence.transition_times ∪ m.ventilation.transition_times

lemma state_change_times_eq_sort (m : ConcentrationModel) :
    m.state_change_times = m.stateChangeSet.sort (· ≤ ·) := rfl

lemma state_change_times_sorted (m : ConcentrationModel) :
    m.state_change_times.Sorted (· < ·) :=
  Finset.sort_sorted_lt _

lemma mem_state_change_times {m : ConcentrationModel} {s : ℝ} :
    s ∈ m.state_change_times ↔ s ∈ m.stateChangeSet :=
  Finset.mem_sort _

/-- Model of `last_state_change` returns the greatest state-change time strictly
below `time`, or `0` when none exists. -/
lemma last_state_change_spec (m : ConcentrationModel) (time : ℝ) :
    (m.last_state_change time ∈ m.state_change_times ∧
        m.last_state_change time < time ∧
        ∀ s ∈ m.state_change_times, s < time → s ≤ m.last_state_change time) ∨
      (m.last_state_change time = 0 ∧
        ∀ s ∈ m.state_change_times, ¬ s < time) := by
  have hrev : m.state_change_times.reverse.Sorted (· > ·) := by
    rw [List.Sorted, List.pairwise_reverse]
    exact state_change_times_sorted m
  have h := firstLt_spec time hrev
  rw [ConcentrationModel.last_state_change]
  simpa using h

/-- The number of state-change times strictly below `t`: the measure that
bounds the recursion depth of `concentration`. -/
noncomputable def changesBelow (m : ConcentrationModel) (t : ℝ) : ℕ :=
  (m.stateChangeSet.filter (fun s => s < t)).card

lemma changesBelow_le (m : ConcentrationModel) (t : ℝ) :
    changesBelow m t ≤ m.state_change_times.length := by
  rw [state_change_times_eq_sort, Finset.length_sort]
  exact Finset.card_le_card (Finset.filter_subset _ _)

/-- Stepping from `t` to the last state change before `t` strictly decreases
the number of state changes below. -/
lemma changesBelow_last_lt {m : ConcentrationModel} {t : ℝ}
    (hmem : m.last_state_change t ∈ m.state_change_times)
    (hlt : m.last_state_change t < t) :
    changesBelow m (m.last_state_change t) < changesBelow m t := by
  apply Finset.card_lt_card
  constructor
  · intro s hs
    rw [Finset.mem_filter] at hs ⊢
    exact ⟨hs.1, hs.2.trans hlt⟩
  · intro hsub
    have h1 : m.last_state_change t ∈
        m.stateChangeSet.filter (fun s => s < t) := by
      rw [Finset.mem_filter]
      exact ⟨mem_state_change_times.mp hmem, hlt⟩
    have h2 := hsub h1
    rw [Finset.mem_filter] at h2
    exact lt_irrefl _ h2.2

lemma concentrationAux_time_zero (m : ConcentrationModel) (n : ℕ) :
    concentrationAux m n 0 = 0 := by
  cases n <;> simp [concentrationAux]

/-- One-step unfolding of the fuelled concentration recursion. -/
lemma concentrationAux_succ (m : ConcentrationModel) (fuel : ℕ) (time : ℝ) :
    concentrationAux m (fuel + 1) time =
      if time = 0 then 0
      else
        m.infected.emission_rate time /
            (m.infectious_virus_removal_rate time * m.room.volume) *
          (1 - Real.exp (-m.infectious_virus_removal_rate time *
            (time - m.last_state_change time))) +
        concentrationAux m fuel (m.last_state_change time) *
          Real.exp (-m.infectious_virus_removal_rate time *
            (time - m.last_state_change time)) := rfl

/-- Any fuel strictly above the number of state changes below `t` computes
the same value as one more unit of fuel: the recursion has stabilised. -/
lemma concentrationAux_stable (m : ConcentrationModel) :
    ∀ n : ℕ, ∀ t : ℝ, changesBelow m t < n →
      concentrationAux m n t = concentrationAux m (n + 1) t := by
  intro n
  induction n with
  | zero => intro t ht; exact absurd ht (Nat.not_lt_zero _)
  | succ k ih =>
    intro t ht
    by_cases h0 : t = 0
    · subst h0
      rw [concentrationAux_time_zero, concentrationAux_time_zero]
    · rw [concentrationAux_succ, concentrationAux_succ, if_neg h0, if_neg h0]
      rcases last_state_change_spec m t with ⟨hmem, hlt, _⟩ | ⟨hzero, _⟩
      · have hdec := changesBelow_last_lt hmem hlt
        rw [ih (m.last_state_change t) (lt_of_lt_of_le hdec (Nat.lt_succ_iff.mp ht))]
      · rw [hzero, concentrationAux_time_zero, concentrationAux_time_zero]

lemma concentrationAux_add (m : ConcentrationModel) (t : ℝ) (n : ℕ)
    (h : changesBelow m t < n) :
    ∀ d : ℕ, concentrationAux m n t = concentrationAux m (n + d) t := by
  intro d
  induction d with
  | zero => rfl
  | succ e ih =>
    rw [ih, ← Nat.add_assoc]
    exact concentrationAux_stable m (n + e) t (lt_of_lt_of_le h (Nat.le_add_right n e))

/-- The concentration value equals the fuelled recursion at any adequate
fuel. -/
lemma concentration_eq_aux (m : ConcentrationModel) (t : ℝ) (n : ℕ)
    (h : changesBelow m t < n) :
    m.concentration t = concentrationAux m n t := by
  have hL : changesBelow m t < m.state_change_times.length + 1 :=
    Nat.lt_succ_of_le (changesBelow_le m t)
  rw [ConcentrationModel.concentration]
  rcases Nat.le_total n (m.state_change_times.length + 1) with hle | hle
  · obtain ⟨d, hd⟩ := Nat.exists_eq_add_of_le hle
    rw [hd]
    exact (concentrationAux_add m t n h d).symm
  · obtain ⟨d, hd⟩ := Nat.exists_eq_add_of_le hle
    rw [hd]
    exact concentrationAux_add m t _ hL d

/-- The central recurrence satisfied by `concentration` away from time 0:
exactly the statement computed by the source's recursive body. -/
lemma concentration_step (m : ConcentrationModel) (t : ℝ) (ht : t ≠ 0) :
    m.concentration t =
      m.infected.emission_rate t /
          (m.infectious_virus_removal_rate t * m.room.volume) *
        (1 - Real.exp (-m.infectious_virus_removal_rate t *
          (t - m.last_state_change t))) +
      m.concentration (m.last_state_change t) *
        Real.exp (-m.infectious_virus_removal_rate t *
          (t - m.last_state_change t)) := by
  have hL : changesBelow m t < m.state_change_times.length + 1 :=
    Nat.lt_succ_of_le (changesBelow_le m t)
  rw [ConcentrationModel.concentration, concentrationAux_succ, if_neg ht]
  rcases last_state_change_spec m t with ⟨hmem, hlt, _⟩ | ⟨hzero, _⟩
  · rw [← concentration_eq_aux m (m.last_state_change t)
      (m.state_change_times.length) (lt_of_lt_of_le
        (changesBelow_last_lt hmem hlt) (changesBelow_le m t))]
  · rw [hzero, concentrationAux_time_zero, ConcentrationModel.concentration,
      concentrationAux_time_zero]

lemma concentration_time_zero (m : ConcentrationModel) :
    m.concentration 0 = 0 := by
  rw [ConcentrationModel.concentration, concentrationAux_time_zero]

/-- When no state-change time lies strictly below `t`, the infected
population cannot be present at `t` (its presence boundary starts are
state-change times), so the emission rate vanishes. -/
lemma emission_rate_eq_zero_of_no_change (m : ConcentrationModel) {t : ℝ}
    (h : ∀ s ∈ m.state_change_times, ¬ s < t) :
    m.infected.emission_rate t = 0 := by
  rw [InfectedPopulation.emission_rate, InfectedPopulation.individual_emission_rate,
    if_neg, zero_mul]
  rintro ⟨p, hp, h1, -⟩
  exact h p.1 (mem_state_change_times.mpr (Finset.mem_union_left _
    (Interval.mem_transition_times.mpr ⟨p, hp, Or.inl rfl⟩))) h1

/-- Arithmetic of one recurrence step: a convex-like combination of a
nonnegative limit and a nonnegative previous value is nonnegative. -/
lemma step_nonneg {E I V C Δ : ℝ} (hE : 0 ≤ E) (hI : 0 < I) (hV : 0 < V)
    (hC : 0 ≤ C) (hΔ : 0 ≤ Δ) :
    0 ≤ E / (I * V) * (1 - Real.exp (-I * Δ)) + C * Real.exp (-I * Δ) := by
  have h1 : Real.exp (-I * Δ) ≤ 1 := by
    rw [Real.exp_le_one_iff]
    nlinarith
  have h2 : (0:ℝ) ≤ 1 - Real.exp (-I * Δ) := by linarith
  have h3 : 0 ≤ E / (I * V) := div_nonneg hE (mul_pos hI hV).le
  exact add_nonneg (mul_nonneg h3 h2) (mul_nonneg hC (Real.exp_pos _).le)

/-- Every value of the fuelled concentration recursion is nonnegative when
the volume is positive, the removal rate is everywhere positive and the
emission rate everywhere nonnegative. -/
lemma concentrationAux_nonneg (m : ConcentrationModel)
    (hV : 0 < m.room.volume)
    (hI : ∀ u : ℝ, 0 < m.infectious_virus_removal_rate u)
    (hE : ∀ u : ℝ, 0 ≤ m.infected.emission_rate u) :
    ∀ n : ℕ, ∀ u : ℝ, 0 ≤ concentrationAux m n u := by
  intro n
  induction n with
  | zero => intro u; rw [concentrationAux]
  | succ k ih =>
    intro u
    by_cases h0 : u = 0
    · rw [concentrationAux_succ, if_pos h0]
    rw [concentrationAux_succ, if_neg h0]
    rcases last_state_change_spec m u with ⟨-, hlt, -⟩ | ⟨hzero, hnone⟩
    · exact step_nonneg (hE u) (hI u) hV (ih _) (by linarith)
    · rcases lt_or_gt_of_ne h0 with hu | hu
      · rw [hzero, emission_rate_eq_zero_of_no_change m hnone, zero_div,
          zero_mul, concentrationAux_time_zero, zero_mul, add_zero]
      · rw [hzero]
        exact step_nonneg (hE u) (hI u) hV
          (by rw [concentrationAux_time_zero]) (by linarith)

/-- C1: the concentration recurrence.  `concentration 0 = 0`, the code's
`last_state_change t` is the greatest state-change time strictly below `t`
(or `0` when none exists), and for `t > 0` the concentration satisfies the
closed-form exponential-decay step. -/
theorem C1_concentration_recurrence (m : ConcentrationModel) (t : ℝ)
    (ht : 0 < t) :
    m.concentration 0 = 0 ∧
    ((m.last_state_change t ∈ m.state_change_times ∧
        m.last_state_change t < t ∧
        ∀ s ∈ m.state_change_times, s < t → s ≤ m.last_state_change t) ∨
      (m.last_state_change t = 0 ∧ ∀ s ∈ m.state_change_times, ¬ s < t)) ∧
    m.concentration t =
      m.infected.emission_rate t /
          (m.infectious_virus_removal_rate t * m.room.volume) *
        (1 - Real.exp (-m.infectious_virus_removal_rate t *
          (t - m.last_state_change t))) +
      m.concentration (m.last_state_change t) *
        Real.exp (-m.infectious_virus_removal_rate t *
          (t - m.last_state_change t)) :=
  ⟨concentration_time_zero m, last_state_change_spec m t,
    concentration_step m t ht.ne'⟩

/-- C10: with positive volume, everywhere-positive removal rate and
everywhere-nonnegative emission rate, the concentration is nonnegative at
every nonnegative time. -/
theorem C10_concentration_nonneg (m : ConcentrationModel)
    (hV : 0 < m.room.volume)
    (hI : ∀ u : ℝ, 0 < m.infectious_virus_removal_rate u)
    (hE : ∀ u : ℝ, 0 ≤ m.infected.emission_rate u)
    (t : ℝ) (ht : 0 ≤ t) :
    0 ≤ m.concentration t := by
  rw [ConcentrationModel.concentration]
  exact concentrationAux_nonneg m hV hI hE _ t

/-- A concrete model: a 75 m³ room, an always-on air change of 30 h⁻¹ and a
single infected person present from 0 h to 8 h, breathing without a mask. -/
noncomputable def exampleModel : ConcentrationModel where
  room := ⟨75⟩
  ventilation := AirChange (SpecificInterval [(0, 24)]) 30
  infected :=
    { number := 1
      presence := SpecificInterval [(0, 8)]
      mask := ⟨0, 0, 0⟩
      activity := ⟨0.51, 0.51⟩
      virus := ⟨1.1, 1e9, 0.02⟩
      expiration := ⟨[0.084, 0.009, 0.003, 0.002],
        [0.8e-4, 1.8e-4, 3.5e-4, 5.5e-4]⟩ }

/-- Witness instantiating the C1 recurrence at the concrete model and t = 1. -/
theorem C1_concentration_recurrence_witness :
    (0:ℝ) < 1 ∧
    (exampleModel.concentration 0 = 0 ∧
    ((exampleModel.last_state_change 1 ∈ exampleModel.state_change_times ∧
        exampleModel.last_state_change 1 < 1 ∧
        ∀ s ∈ exampleModel.state_change_times, s < 1 →
          s ≤ exampleModel.last_state_change 1) ∨
      (exampleModel.last_state_change 1 = 0 ∧
        ∀ s ∈ exampleModel.state_change_times, ¬ s < 1)) ∧
    exampleModel.concentration 1 =
      exampleModel.infected.emission_rate 1 /
          (exampleModel.infectious_virus_removal_rate 1 *
            exampleModel.room.volume) *
        (1 - Real.exp (-exampleModel.infectious_virus_removal_rate 1 *
          (1 - exampleModel.last_state_change 1))) +
      exampleModel.concentration (exampleModel.last_state_change 1) *
        Real.exp (-exampleModel.infectious_virus_removal_rate 1 *
          (1 - exampleModel.last_state_change 1))) :=
  ⟨one_pos, C1_concentration_recurrence exampleModel 1 one_pos⟩

lemma exampleModel_removal_rate_pos (u : ℝ) :
    0 < exampleModel.infectious_virus_removal_rate u := by
  have h2 : 0 < Real.log 2 := Real.log_pos (by norm_num)
  rw [ConcentrationModel.infectious_virus_removal_rate]
  have hd : 0 < exampleModel.virus.decay_constant := by
    rw [Virus.decay_constant]
    show 0 < Real.log 2 / (1.1 : ℝ)
    positivity
  have ha : 0 ≤ exampleModel.ventilation.air_exchange exampleModel.room u := by
    show 0 ≤ if (SpecificInterval [(0, 24)]).triggered u then (30:ℝ) else 0
    by_cases htr : (SpecificInterval [(0, 24)]).triggered u
    · rw [if_pos htr]; norm_num
    · rw [if_neg htr]
  have : (0:ℝ) < 1e-4 * 3600 / 1.5 := by norm_num
  linarith

lemma exampleModel_emission_rate_nonneg (u : ℝ) :
    0 ≤ exampleModel.infected.emission_rate u := by
  rw [InfectedPopulation.emission_rate, InfectedPopulation.individual_emission_rate]
  by_cases hp : exampleModel.infected.person_present u
  · rw [if_pos hp]
    have haer : 0 ≤ exampleModel.infected.expiration.aerosols
        exampleModel.infected.mask := by
      show 0 ≤ (Expiration.mk [0.084, 0.009, 0.003, 0.002]
        [0.8e-4, 1.8e-4, 3.5e-4, 5.5e-4]).aerosols ⟨0, 0, 0⟩
      rw [Expiration.aerosols]
      simp only [Mask.exhale_efficiency, particleVolume, List.zip, List.zipWith,
        List.map, List.sum_cons, List.sum_nil]
      norm_num
      positivity
    rw [InfectedPopulation.emission_rate_when_present]
    have hrest : (0:ℝ) ≤ exampleModel.infected.virus.viral_load_in_sputum *
        exampleModel.infected.virus.coefficient_of_infectivity *
        exampleModel.infected.activity.exhalation_rate * 10 ^ 6 := by
      show (0:ℝ) ≤ 1e9 * 0.02 * 0.51 * 10 ^ 6
      norm_num
    have := mul_nonneg hrest haer
    have hn : (0:ℝ) ≤ (exampleModel.infected.number : ℝ) := Nat.cast_nonneg _
    exact mul_nonneg this hn
  · rw [if_neg hp, zero_mul]

/-- Witness instantiating C10 at the concrete model and t = 1. -/
theorem C10_concentration_nonneg_witness :
    (0:ℝ) < exampleModel.room.volume ∧ (0:ℝ) ≤ 1 ∧
    0 ≤ exampleModel.concentration 1 :=
  ⟨by norm_num [exampleModel], zero_le_one,
    C10_concentration_nonneg exampleModel (by norm_num [exampleModel])
      exampleModel_removal_rate_pos exampleModel_emission_rate_nonneg 1 zero_le_one⟩

/-- C4: `reproduction_number` is `expected_new_cases` when the infected
headcount is already 1, and otherwise the `expected_new_cases` of the model
with the infected headcount replaced by 1 and every other field unchanged. -/
theorem C4_reproduction_number (em : ExposureModel) :
    (em.concentration_model.infected.number = 1 →
      em.reproduction_number = em.expected_new_cases) ∧
    (em.concentration_model.infected.number ≠ 1 →
      em.reproduction_number = (setInfectedNumber em 1).expected_new_cases) ∧
    (setInfectedNumber em 1).concentration_model.infected.number = 1 ∧
    (setInfectedNumber em 1).exposed = em.exposed ∧
    (setInfectedNumber em 1).repeats = em.repeats ∧
    (setInfectedNumber em 1).concentration_model.room =
      em.concentration_model.room ∧
    (setInfectedNumber em 1).concentration_model.ventilation =
      em.concentration_model.ventilation ∧
    (setInfectedNumber em 1).concentration_model.infected.presence =
      em.concentration_model.infected.presence ∧
    (setInfectedNumber em 1).concentration_model.infected.mask =
      em.concentration_model.infected.mask ∧
    (setInfectedNumber em 1).concentration_model.infected.activity =
      em.concentration_model.infected.activity ∧
    (setInfectedNumber em 1).concentration_model.infected.virus =
      em.concentration_model.infected.virus ∧
    (setInfectedNumber em 1).concentration_model.infected.expiration =
      em.concentration_model.infected.expiration := by
  refine ⟨fun h => ?_, fun h => ?_, rfl, rfl, rfl, rfl, rfl, rfl, rfl, rfl,
    rfl, rfl⟩
  · rw [ExposureModel.reproduction_number, if_pos h]
  · rw [ExposureModel.reproduction_number, if_neg h]

/-- A concrete exposure model over `exampleModel` with three exposed people. -/
noncomputable def exampleExposure : ExposureModel where
  concentration_model := exampleModel
  exposed :=
    { number := 3
      presence := SpecificInterval [(0, 2)]
      mask := ⟨0, 0, 0⟩
      activity := ⟨0.51, 0.51⟩ }
  repeats := 1

/-- Witness instantiating C4 at the concrete exposure model. -/
theorem C4_reproduction_number_witness :
    (exampleExposure.concentration_model.infected.number = 1 →
      exampleExposure.reproduction_number = exampleExposure.expected_new_cases) ∧
    (exampleExposure.concentration_model.infected.number ≠ 1 →
      exampleExposure.reproduction_number =
        (setInfectedNumber exampleExposure 1).expected_new_cases) ∧
    (setInfectedNumber exampleExposure 1).concentration_model.infected.number = 1 ∧
    (setInfectedNumber exampleExposure 1).exposed = exampleExposure.exposed ∧
    (setInfectedNumber exampleExposure 1).repeats = exampleExposure.repeats ∧
    (setInfectedNumber exampleExposure 1).concentration_model.room =
      exampleExposure.concentration_model.room ∧
    (setInfectedNumber exampleExposure 1).concentration_model.ventilation =
      exampleExposure.concentration_model.ventilation ∧
    (setInfectedNumber exampleExposure 1).concentration_model.infected.presence =
      exampleExposure.concentration_model.infected.presence ∧
    (setInfectedNumber exampleExposure 1).concentration_model.infected.mask =
      exampleExposure.concentration_model.infected.mask ∧
    (setInfectedNumber exampleExposure 1).concentration_model.infected.activity =
      exampleExposure.concentration_model.infected.activity ∧
    (setInfectedNumber exampleExposure 1).concentration_model.infected.virus =
      exampleExposure.concentration_model.infected.virus ∧
    (setInfectedNumber exampleExposure 1).concentration_model.infected.expiration =
      exampleExposure.concentration_model.infected.expiration :=
  C4_reproduction_number exampleExposure

/-- C6: a composite ventilation sums its constituents' air-exchange rates
and its transition times are exactly the union of the constituents'. -/
theorem C6_multiple_ventilation (ventilations : List VentilationBase)
    (room : Room) (t : ℝ) :
    (MultipleVentilation ventilations).air_exchange room t =
      (ventilations.map (fun v => v.air_exchange room t)).sum ∧
    ∀ s : ℝ, s ∈ (MultipleVentilation ventilations).transition_times ↔
      ∃ v ∈ ventilations, s ∈ v.transition_times := by
  refine ⟨rfl, fun s => ?_⟩
  show s ∈ ventilations.foldr
    (fun v transitions => v.transition_times ∪ transitions) ∅ ↔ _
  induction ventilations with
  | nil => simp
  | cons v rest ih => simp [ih]

/-- Python's `tuple(sorted(set(l))) == l` holds exactly when `l` is strictly
increasing. -/
lemma sortedDedup_eq_iff {l : List ℝ} :
    sortedDedup l = l ↔ l.Sorted (· < ·) := by
  constructor
  · intro h
    rw [← h]
    exact Finset.sort_sorted_lt _
  · intro h
    exact (List.toFinset_sort (· ≤ ·) (h.imp ne_of_lt)).mpr (h.imp le_of_lt)

/-- C7: construction raises a validation error iff the transition-time count
is not one more than the value count, or the transition times are not
strictly increasing (unsorted or with duplicates). -/
theorem C7_validation (pc : PiecewiseConstant) :
    pc.raisesOnInit ↔
      (pc.transition_times.length ≠ pc.values.length + 1 ∨
        ¬ pc.transition_times.Sorted (· < ·)) :=
  or_congr Iff.rfl (not_congr sortedDedup_eq_iff)

/-- C9: a periodic interval with `period == 0` has no boundaries, hence no
transition times and is never triggered, even for positive duration. -/
theorem C9_period_zero (duration t : ℝ) :
    (PeriodicInterval 0 duration).boundaries = [] ∧
    (PeriodicInterval 0 duration).transition_times = ∅ ∧
    ¬ (PeriodicInterval 0 duration).triggered t := by
  rw [PeriodicInterval, if_pos (Or.inl rfl)]
  refine ⟨rfl, rfl, ?_⟩
  rintro ⟨p, hp, -⟩
  exact absurd hp (List.not_mem_nil p)

/-- The head of a strictly sorted list bounds every entry. -/
lemma sorted_cons_le_getD {a : ℝ} {l : List ℝ} (h : (a :: l).Sorted (· < ·))
    (j : ℕ) (hj : j < (a :: l).length) : a ≤ (a :: l).getD j 0 := by
  cases j with
  | zero => rw [List.getD_cons_zero]
  | succ i =>
    rw [List.getD_cons_succ]
    have hi : i < l.length := by simpa using hj
    rw [List.getD_eq_getElem _ _ hi]
    exact ((List.sorted_cons.mp h).1 _ (List.getElem_mem hi)).le

/-- Every entry of a strictly sorted list is bounded by its last element. -/
lemma sorted_getD_le_getLastI {l : List ℝ} (h : l.Sorted (· < ·))
    (j : ℕ) (hj : j < l.length) : l.getD j 0 ≤ l.getLastI := by
  induction l generalizing j with
  | nil => exact absurd hj (by simp)
  | cons a rest ih =>
    cases rest with
    | nil =>
      have hj0 : j = 0 := by
        simp only [List.length_cons, List.length_nil] at hj
        omega
      subst hj0
      rw [List.getD_cons_zero]
      simp [List.getLastI]
    | cons b rest' =>
      have hlast : (a :: b :: rest').getLastI = (b :: rest').getLastI := by
        rw [List.getLastI_eq_getLast?, List.getLastI_eq_getLast?,
          List.getLast?_cons_cons]
      rw [hlast]
      cases j with
      | zero =>
        rw [List.getD_cons_zero]
        have hb : a ≤ (b :: rest').getD 0 0 :=
          ((List.sorted_cons.mp h).1 _ (List.mem_cons_self b rest')).le.trans
            (by rw [List.getD_cons_zero])
        exact (hb.trans (ih (List.sorted_cons.mp h).2 0 (by simp)))
      | succ i =>
        rw [List.getD_cons_succ]
        exact ih (List.sorted_cons.mp h).2 i (by simpa using hj)

/-- Correctness of the `value` scan loop: on a strictly sorted transition
list, it returns the value of the sub-interval `(ts[i], ts[i+1]]`
containing `time`. -/
lemma pcwScan_eq (time : ℝ) :
    ∀ (ts vs : List ℝ) (acc : ℝ) (i : ℕ), ts.Sorted (· < ·) →
      ts.length = vs.length + 1 → i + 1 < ts.length →
      ts.getD i 0 < time → time ≤ ts.getD (i + 1) 0 →
      pcwScan time ts vs acc = vs.getD i 0 := by
  intro ts
  induction ts with
  | nil => intro vs acc i _ _ hi _ _; exact absurd hi (by simp)
  | cons t1 rest ih =>
    intro vs acc i hsort hlen hi h1 h2
    cases rest with
    | nil => simp at hi
    | cons t2 rest' =>
      cases vs with
      | nil => simp at hlen
      | cons v vs' =>
        cases i with
        | zero =>
          rw [List.getD_cons_zero] at h1
          rw [List.getD_cons_succ, List.getD_cons_zero] at h2
          simp only [pcwScan, if_pos (And.intro h1 h2)]
          rw [List.getD_cons_zero]
        | succ j =>
          rw [List.getD_cons_succ] at h1 h2
          have hj : j < (t2 :: rest').length := by
            simp only [List.length_cons] at hi ⊢
            omega
          have ht2 : t2 ≤ (t2 :: rest').getD j 0 :=
            sorted_cons_le_getD (List.sorted_cons.mp hsort).2 j hj
          have hcond : ¬ (t1 < time ∧ time ≤ t2) := by
            rintro ⟨-, hle⟩
            exact absurd h1 (not_lt.mpr (hle.trans ht2))
          simp only [pcwScan, if_neg hcond]
          rw [List.getD_cons_succ]
          exact ih vs' v j (List.sorted_cons.mp hsort).2
            (by simpa using hlen) (by simpa using hi) h1 h2

/-- C3: for a validly constructed piecewise-constant function, `value`
clamps to the first value at or before the first transition, clamps to the
last value strictly after the last transition, and otherwise returns the
value of the unique sub-interval `(ts[i], ts[i+1]]` containing the query. -/
theorem C3_piecewise_value (pc : PiecewiseConstant)
    (hlen : pc.transition_times.length = pc.values.length + 1)
    (hsort : pc.transition_times.Sorted (· < ·)) (t : ℝ) :
    (t ≤ pc.transition_times.headI → pc.value t = pc.values.headI) ∧
    (pc.transition_times.getLastI < t → pc.value t = pc.values.getLastI) ∧
    (∀ i : ℕ, i + 1 < pc.transition_times.length →
      pc.transition_times.getD i 0 < t →
      t ≤ pc.transition_times.getD (i + 1) 0 →
      pc.value t = pc.values.getD i 0) := by
  refine ⟨fun h => ?_, fun h => ?_, fun i hi h1 h2 => ?_⟩
  · rw [PiecewiseConstant.value, if_pos h]
  · have hne : pc.transition_times ≠ [] := by
      intro hnil
      rw [hnil] at hlen
      simp at hlen
    have hhead : pc.transition_times.headI ≤ pc.transition_times.getLastI := by
      cases hts : pc.transition_times with
      | nil => exact absurd hts hne
      | cons a l =>
        rw [List.headI]
        have := sorted_getD_le_getLastI (hts ▸ hsort) 0 (by simp)
        rwa [List.getD_cons_zero] at this
    rw [PiecewiseConstant.value, if_neg (not_le.mpr (lt_of_le_of_lt hhead h)),
      if_pos h]
  · have hhead : pc.transition_times.headI ≤ pc.transition_times.getD i 0 := by
      cases hts : pc.transition_times with
      | nil => rw [hts] at hi; simp at hi
      | cons a l =>
        rw [List.headI]
        exact sorted_cons_le_getD (hts ▸ hsort) i (by rw [← hts]; omega)
    have hlast : pc.transition_times.getD (i + 1) 0 ≤
        pc.transition_times.getLastI :=
      sorted_getD_le_getLastI hsort (i + 1) hi
    rw [PiecewiseConstant.value,
      if_neg (not_le.mpr (lt_of_le_of_lt hhead h1)),
      if_neg (not_lt.mpr (h2.trans hlast))]
    exact pcwScan_eq t pc.transition_times pc.values 0 i hsort hlen hi h1 h2

/-- The §8 scenario instance: transitions `[0, 8, 16, 24]`, values `[2, 5, 8]`. -/
noncomputable def examplePcw : PiecewiseConstant :=
  ⟨[0, 8, 16, 24], [2, 5, 8]⟩

/-- Witness instantiating C3 on the scenario instance: `value 10 = 5`,
`value 0 = 2`, `value 24 = 8` and `value 8 = 2`. -/
theorem C3_piecewise_value_witness :
    examplePcw.value 10 = 5 ∧ examplePcw.value 0 = 2 ∧
    examplePcw.value 24 = 8 ∧ examplePcw.value 8 = 2 := by
  have hlen : examplePcw.transition_times.length =
      examplePcw.values.length + 1 := by
    simp [examplePcw]
  have hsort : examplePcw.transition_times.Sorted (· < ·) := by
    simp only [examplePcw]
    refine List.Sorted.cons ?_ (List.Sorted.cons ?_ (List.Sorted.cons ?_ ?_))
      <;> norm_num [List.sorted_cons]
  refine ⟨?_, ?_, ?_, ?_⟩
  · have := (C3_piecewise_value examplePcw hlen hsort 10).2.2 1
      (by simp [examplePcw]) (by norm_num [examplePcw]) (by norm_num [examplePcw])
    simpa [examplePcw] using this
  · have := (C3_piecewise_value examplePcw hlen hsort 0).1
      (by norm_num [examplePcw])
    simpa [examplePcw] using this
  · have := (C3_piecewise_value examplePcw hlen hsort 24).2.2 2
      (by simp [examplePcw]) (by norm_num [examplePcw]) (by norm_num [examplePcw])
    simpa [examplePcw] using this
  · have := (C3_piecewise_value examplePcw hlen hsort 8).2.2 0
      (by simp [examplePcw]) (by norm_num [examplePcw]) (by norm_num [examplePcw])
    simpa [examplePcw] using this

/-- Membership in the model of `numpy.arange`. -/
lemma mem_arange {start stop step x : ℝ} :
    x ∈ arange start stop step ↔
      ∃ i : ℕ, i < (⌈(stop - start) / step⌉).toNat ∧ x = start + i * step := by
  rw [arange]
  simp only [List.mem_map, List.mem_range]
  constructor
  · rintro ⟨i, hi, rfl⟩
    exact ⟨i, hi, rfl⟩
  · rintro ⟨i, hi, rfl⟩
    exact ⟨i, hi, rfl⟩

/-- Counterexample to C5 as stated: `PeriodicInterval 120 120` has positive
duration equal to its period, yet `triggered 0` is false — every generated
boundary pair starts at a time ≥ 0 and pairs are open at the start, so no
pair contains 0. -/
theorem C5_counterexample :
    (0:ℝ) < 120 ∧ (120:ℝ) ≤ 120 ∧
      ¬ (PeriodicInterval 120 120).triggered 0 := by
  refine ⟨by norm_num, le_refl _, ?_⟩
  rintro ⟨p, hp, h1, -⟩
  rw [PeriodicInterval, if_neg (by norm_num)] at hp
  obtain ⟨x, hx, rfl⟩ := List.mem_map.mp hp
  rw [mem_arange] at hx
  obtain ⟨k, -, rfl⟩ := hx
  have hk : (0:ℝ) ≤ 0 + (k : ℝ) * (120 / 60) := by positivity
  exact absurd h1 (not_lt.mpr hk)

/-- Coverage of `(0, 24]` by the `arange`-generated pairs when the pair
width `d` is at least the step `s`. -/
lemma arange_cover {s d t : ℝ} (hs : 0 < s) (hsd : s ≤ d)
    (ht : 0 < t) (h24 : t ≤ 24) :
    ∃ x ∈ arange 0 24 s, x < t ∧ t ≤ x + d := by
  have hK1 : 0 < ⌈t / s⌉ := Int.ceil_pos.mpr (div_pos ht hs)
  have hM0 : 0 < ⌈(24 - 0) / s⌉ := Int.ceil_pos.mpr (div_pos (by norm_num) hs)
  have hKM : ⌈t / s⌉ ≤ ⌈(24 - 0) / s⌉ :=
    Int.ceil_le_ceil (div_le_div_of_nonneg_right (by linarith) hs.le)
  have h0 : (0:ℤ) ≤ ⌈t / s⌉ - 1 := by omega
  have hkcast : (((⌈t / s⌉ - 1).toNat : ℕ) : ℝ) = ((⌈t / s⌉ : ℤ) : ℝ) - 1 := by
    have h1 : ((⌈t / s⌉ - 1).toNat : ℤ) = ⌈t / s⌉ - 1 := Int.toNat_of_nonneg h0
    have h2 := congrArg (fun z : ℤ => (z : ℝ)) h1
    push_cast at h2
    exact h2
  refine ⟨0 + ((⌈t / s⌉ - 1).toNat : ℝ) * s, ?_, ?_, ?_⟩
  · rw [mem_arange]
    refine ⟨(⌈t / s⌉ - 1).toNat, ?_, rfl⟩
    rw [Int.toNat_lt_toNat hM0]
    omega
  · rw [zero_add, hkcast]
    have hceil : ((⌈t / s⌉ : ℤ) : ℝ) < t / s + 1 := Int.ceil_lt_add_one (t / s)
    have hlt : ((⌈t / s⌉ : ℤ) : ℝ) - 1 < t / s := by linarith
    calc (((⌈t / s⌉ : ℤ) : ℝ) - 1) * s < t / s * s :=
          mul_lt_mul_of_pos_right hlt hs
      _ = t := div_mul_cancel₀ t hs.ne'
  · rw [zero_add, hkcast]
    have hle : t / s ≤ ((⌈t / s⌉ : ℤ) : ℝ) := Int.le_ceil (t / s)
    have h1 : t ≤ ((⌈t / s⌉ : ℤ) : ℝ) * s := by
      calc t = t / s * s := (div_mul_cancel₀ t hs.ne').symm
        _ ≤ _ := mul_le_mul_of_nonneg_right hle hs.le
    have h2 : (((⌈t / s⌉ : ℤ) : ℝ) - 1) * s =
        ((⌈t / s⌉ : ℤ) : ℝ) * s - s := by ring
    linarith

/-- C5 (amended): a periodic interval with `duration == 0` has no transition
times and is never triggered; one with `0 < period ≤ duration` is triggered
at every time `t` with `0 < t ≤ 24` (not at every real `t`: the generated
pairs are open at their starts and tile only the 24-hour day, so `t = 0`,
negative `t` and large `t` are not triggered). -/
theorem C5_periodic_interval (period duration t : ℝ) :
    (duration = 0 → (PeriodicInterval period duration).transition_times = ∅ ∧
      ¬ (PeriodicInterval period duration).triggered t) ∧
    (0 < period → period ≤ duration → 0 < t → t ≤ 24 →
      (PeriodicInterval period duration).triggered t) := by
  constructor
  · intro h0
    rw [PeriodicInterval, if_pos (Or.inr h0)]
    refine ⟨rfl, ?_⟩
    rintro ⟨p, hp, -⟩
    exact absurd hp (List.not_mem_nil p)
  · intro hper hpd ht h24
    have hdur : duration ≠ 0 := ne_of_gt (lt_of_lt_of_le hper hpd)
    rw [PeriodicInterval, if_neg (by push_neg; exact ⟨ne_of_gt hper, hdur⟩)]
    have hs : 0 < period / 60 := by positivity
    have hsd : period / 60 ≤ duration / 60 :=
      div_le_div_of_nonneg_right hpd (by norm_num)
    obtain ⟨x, hx, h1, h2⟩ := arange_cover hs hsd ht h24
    exact ⟨(x, x + duration / 60), List.mem_map.mpr ⟨x, hx, rfl⟩, h1, h2⟩

/-- Witness instantiating the amended C5 at `period = duration = 120`
minutes and `t = 1`. -/
theorem C5_periodic_interval_witness :
    (0:ℝ) < 120 ∧ (120:ℝ) ≤ 120 ∧ (0:ℝ) < 1 ∧ (1:ℝ) ≤ 24 ∧
      (PeriodicInterval 120 120).triggered 1 :=
  ⟨by norm_num, le_refl _, one_pos, by norm_num,
    (C5_periodic_interval 120 120 1).2 (by norm_num) (le_refl _) one_pos
      (by norm_num)⟩

/-- C8: a sliding window whose active interval is triggered, with equal
positive inside and outside temperatures, positive geometry and volume and
a positive minimum temperature difference, yields a strictly positive
air-exchange rate (the inside temperature is floored to
`outside + min_deltaT` before the buoyancy formula is applied). -/
theorem C8_sliding_window_positive (active : Interval)
    (inside_temp outside_temp : PiecewiseConstant)
    (window_height opening_length : ℝ) (number_of_windows : ℕ)
    (min_deltaT : ℝ) (room : Room) (t : ℝ)
    (htrig : active.triggered t)
    (heq : inside_temp.value t = outside_temp.value t)
    (hT : 0 < outside_temp.value t)
    (hwh : 0 < window_height) (hol : 0 < opening_length)
    (hnw : 0 < number_of_windows) (hmdT : 0 < min_deltaT)
    (hV : 0 < room.volume) :
    0 < (SlidingWindow active inside_temp outside_temp window_height
      opening_length number_of_windows min_deltaT).air_exchange room t := by
  rw [SlidingWindow, WindowOpening]
  simp only
  rw [if_pos htrig]
  have hmax : max (inside_temp.value t) (outside_temp.value t + min_deltaT) =
      outside_temp.value t + min_deltaT :=
    max_eq_right (by rw [heq]; linarith)
  rw [hmax]
  have hgrad : 0 < (outside_temp.value t + min_deltaT - outside_temp.value t) /
      outside_temp.value t :=
    div_pos (by linarith) hT
  have hroot : 0 < Real.sqrt (9.81 * window_height *
      ((outside_temp.value t + min_deltaT - outside_temp.value t) /
        outside_temp.value t)) :=
    Real.sqrt_pos.mpr (mul_pos (mul_pos (by norm_num) hwh) hgrad)
  have harea : 0 < window_height * opening_length * (number_of_windows : ℝ) :=
    mul_pos (mul_pos hwh hol) (Nat.cast_pos.mpr hnw)
  have hfrac : (0:ℝ) < 3600 / (3 * room.volume) :=
    div_pos (by norm_num) (by linarith)
  exact mul_pos (mul_pos (mul_pos hfrac (by norm_num)) harea) hroot

/-- A constant 293 K piecewise temperature over the day. -/
noncomputable def exampleTemp : PiecewiseConstant :=
  ⟨[0, 24], [293]⟩

lemma exampleTemp_value_one : exampleTemp.value 1 = 293 := by
  rw [PiecewiseConstant.value]
  rw [if_neg (by norm_num [exampleTemp]), if_neg ?_]
  · simp only [exampleTemp, pcwScan]
    rw [if_pos (by norm_num)]
  · show ¬ (exampleTemp.transition_times.getLastI < 1)
    norm_num [exampleTemp, List.getLastI]

/-- Witness instantiating C8 on a concrete sliding window at `t = 1`. -/
theorem C8_sliding_window_positive_witness :
    (SpecificInterval [(0, 24)]).triggered 1 ∧
    exampleTemp.value 1 = exampleTemp.value 1 ∧
    (0:ℝ) < exampleTemp.value 1 ∧
    0 < (SlidingWindow (SpecificInterval [(0, 24)]) exampleTemp exampleTemp
      1 0.5 1 0.1).air_exchange ⟨75⟩ 1 := by
  have htrig : (SpecificInterval [(0, 24)]).triggered 1 :=
    ⟨(0, 24), by simp [SpecificInterval], by norm_num, by norm_num⟩
  have hT : (0:ℝ) < exampleTemp.value 1 := by
    rw [exampleTemp_value_one]; norm_num
  exact ⟨htrig, rfl, hT,
    C8_sliding_window_positive (SpecificInterval [(0, 24)]) exampleTemp
      exampleTemp 1 0.5 1 0.1 ⟨75⟩ 1 htrig rfl hT one_pos (by norm_num)
      one_pos (by norm_num) (by norm_num)⟩

/-- On an open interval containing none of an interval's transition times,
`triggered` is constant. -/
lemma triggered_constant_on (i : Interval) {a b u v : ℝ}
    (hgap : ∀ s ∈ i.transition_times, s ≤ a ∨ b ≤ s)
    (hu : u ∈ Set.Ioo a b) (hv : v ∈ Set.Ioo a b) :
    i.triggered u ↔ i.triggered v := by
  suffices h : ∀ x y : ℝ, x ∈ Set.Ioo a b → y ∈ Set.Ioo a b →
      i.triggered x → i.triggered y by
    exact ⟨h u v hu hv, h v u hv hu⟩
  rintro x y hx hy ⟨p, hp, h1, h2⟩
  have hps : p.1 ≤ a ∨ b ≤ p.1 :=
    hgap p.1 (Interval.mem_transition_times.mpr ⟨p, hp, Or.inl rfl⟩)
  have hpe : p.2 ≤ a ∨ b ≤ p.2 :=
    hgap p.2 (Interval.mem_transition_times.mpr ⟨p, hp, Or.inr rfl⟩)
  refine ⟨p, hp, ?_, ?_⟩
  · rcases hps with h | h
    · exact lt_of_le_of_lt h hy.1
    · exact absurd h1 (not_lt.mpr (hx.2.le.trans h))
  · rcases hpe with h | h
    · exact absurd h2 (not_le.mpr (lt_of_le_of_lt h hx.1))
    · exact le_trans hy.2.le h

/-- Inside a gap after a state-change time `t0`, `last_state_change` is
exactly `t0`. -/
lemma last_state_change_eq_of_gap (m : ConcentrationModel) {t0 δ u : ℝ}
    (ht0 : t0 ∈ m.state_change_times)
    (hgap : ∀ s ∈ m.state_change_times, s ≤ t0 ∨ t0 + δ ≤ s)
    (hu : u ∈ Set.Ioo t0 (t0 + δ)) :
    m.last_state_change u = t0 := by
  rcases last_state_change_spec m u with ⟨hmem, hlt, hmax⟩ | ⟨-, hnone⟩
  · have h1 : m.last_state_change u ≤ t0 := by
      rcases hgap _ hmem with h | h
      · exact h
      · exact absurd hlt (not_lt.mpr (hu.2.le.trans h))
    exact le_antisymm h1 (hmax t0 ht0 hu.1)
  · exact absurd hu.1 (hnone t0 ht0)

/-- C2: the concentration is right-continuous at a nonnegative state-change
time `t0`, provided a gap of width `δ` free of further state changes follows
`t0` and the ventilation's air-exchange rate is constant on that gap (as it
is for every concrete ventilation variant, whose rates change only at
declared transition times). -/
theorem C2_concentration_right_continuous (m : ConcentrationModel)
    (t0 δ : ℝ) (ht0 : t0 ∈ m.state_change_times) (ht0' : 0 ≤ t0)
    (hδ : 0 < δ)
    (hgap : ∀ s ∈ m.state_change_times, s ≤ t0 ∨ t0 + δ ≤ s)
    (hvent : ∀ u ∈ Set.Ioo t0 (t0 + δ),
      m.ventilation.air_exchange m.room u =
        m.ventilation.air_exchange m.room (t0 + δ / 2)) :
    Filter.Tendsto m.concentration (nhdsWithin t0 (Set.Ioi t0))
      (nhds (m.concentration t0)) := by
  have hmid : t0 + δ / 2 ∈ Set.Ioo t0 (t0 + δ) := by
    constructor <;> [linarith; linarith]
  have hIVRR : ∀ u ∈ Set.Ioo t0 (t0 + δ),
      m.infectious_virus_removal_rate u =
        m.infectious_virus_removal_rate (t0 + δ / 2) := by
    intro u hu
    rw [ConcentrationModel.infectious_virus_removal_rate,
      ConcentrationModel.infectious_virus_removal_rate, hvent u hu]
  have hgap' : ∀ s ∈ m.infected.presence.transition_times,
      s ≤ t0 ∨ t0 + δ ≤ s := fun s hs =>
    hgap s (mem_state_change_times.mpr (Finset.mem_union_left _ hs))
  have hE : ∀ u ∈ Set.Ioo t0 (t0 + δ),
      m.infected.emission_rate u = m.infected.emission_rate (t0 + δ / 2) := by
    intro u hu
    rw [InfectedPopulation.emission_rate, InfectedPopulation.emission_rate,
      InfectedPopulation.individual_emission_rate,
      InfectedPopulation.individual_emission_rate]
    have hpres : m.infected.person_present u ↔
        m.infected.person_present (t0 + δ / 2) :=
      triggered_constant_on m.infected.presence hgap' hu hmid
    by_cases hp : m.infected.person_present u
    · rw [if_pos hp, if_pos (hpres.mp hp)]
    · rw [if_neg hp, if_neg (fun hq => hp (hpres.mpr hq))]
  have hg : Filter.Tendsto (fun u =>
      m.infected.emission_rate (t0 + δ / 2) /
          (m.infectious_virus_removal_rate (t0 + δ / 2) * m.room.volume) *
        (1 - Real.exp (-m.infectious_virus_removal_rate (t0 + δ / 2) *
          (u - t0))) +
      m.concentration t0 *
        Real.exp (-m.infectious_virus_removal_rate (t0 + δ / 2) * (u - t0)))
      (nhds t0) (nhds (m.concentration t0)) := by
    have hcont : Continuous (fun u : ℝ =>
        m.infected.emission_rate (t0 + δ / 2) /
            (m.infectious_virus_removal_rate (t0 + δ / 2) * m.room.volume) *
          (1 - Real.exp (-m.infectious_virus_removal_rate (t0 + δ / 2) *
            (u - t0))) +
        m.concentration t0 *
          Real.exp (-m.infectious_virus_removal_rate (t0 + δ / 2) *
            (u - t0))) := by
      fun_prop
    have := hcont.tendsto t0
    simpa using this
  refine Filter.Tendsto.congr' ?_ (hg.mono_left nhdsWithin_le_nhds)
  have hIoo : Set.Ioo t0 (t0 + δ) ∈ nhdsWithin t0 (Set.Ioi t0) :=
    Ioo_mem_nhdsWithin_Ioi ⟨le_refl t0, by linarith⟩
  filter_upwards [hIoo] with u hu
  rw [concentration_step m u (ne_of_gt (lt_of_le_of_lt ht0' hu.1)),
    last_state_change_eq_of_gap m ht0 hgap hu, hIVRR u hu, hE u hu]

lemma exampleModel_state_change_zero :
    (0:ℝ) ∈ exampleModel.state_change_times :=
  mem_state_change_times.mpr (Finset.mem_union_left _
    (Interval.mem_transition_times.mpr
      ⟨(0, 8), by simp [exampleModel, SpecificInterval], Or.inl rfl⟩))

lemma exampleModel_gap :
    ∀ s ∈ exampleModel.state_change_times, s ≤ 0 ∨ (0:ℝ) + 8 ≤ s := by
  intro s hs
  rw [mem_state_change_times] at hs
  simp only [ConcentrationModel.stateChangeSet, exampleModel, AirChange,
    SpecificInterval, Finset.mem_union,
    Interval.mem_transition_times] at hs
  simp only [List.mem_singleton] at hs
  rcases hs with ⟨p, rfl, rfl | rfl⟩ | ⟨p, rfl, rfl | rfl⟩ <;> norm_num

lemma exampleModel_vent_constant :
    ∀ u ∈ Set.Ioo (0:ℝ) ((0:ℝ) + 8),
      exampleModel.ventilation.air_exchange exampleModel.room u =
        exampleModel.ventilation.air_exchange exampleModel.room
          ((0:ℝ) + 8 / 2) := by
  intro u hu
  show (if (SpecificInterval [(0, 24)]).triggered u then (30:ℝ) else 0) =
    (if (SpecificInterval [(0, 24)]).triggered ((0:ℝ) + 8 / 2) then (30:ℝ)
      else 0)
  rw [if_pos ⟨(0, 24), by simp [SpecificInterval],
      by show (0:ℝ) < u; linarith [hu.1],
      by show u ≤ (24:ℝ); linarith [hu.2]⟩,
    if_pos ⟨(0, 24), by simp [SpecificInterval], by norm_num, by norm_num⟩]

/-- Witness instantiating C2 at the concrete model, at the state-change
time 0 with gap width 8. -/
theorem C2_concentration_right_continuous_witness :
    (0:ℝ) ∈ exampleModel.state_change_times ∧ (0:ℝ) ≤ 0 ∧ (0:ℝ) < 8 ∧
    Filter.Tendsto exampleModel.concentration
      (nhdsWithin 0 (Set.Ioi 0)) (nhds (exampleModel.concentration 0)) :=
  ⟨exampleModel_state_change_zero, le_refl 0, by norm_num,
    C2_concentration_right_continuous exampleModel 0 8
      exampleModel_state_change_zero (le_refl 0) (by norm_num)
      exampleModel_gap exampleModel_vent_constant⟩

end Cara
